import Mathlib

/-!
Verification development for the TokenAlley funding-rate bots.

The Python sources are shallowly embedded: strings are lists of characters,
Python floats that only ever get compared / negated / absolute-valued are
modelled by rationals, SQLite tables by lists of records, and the event loop
and HTTP environment by explicit inputs (tick minutes, response lists).
-/

/-- Characters of a string literal, used to write Python string constants. -/
def chars (s : String) : List Char := s.data

/-- One scanning step of Python str.replace, with explicit fuel.  Scans left
to right; whenever the (non-empty) pattern is a prefix of the remaining
input, emits the replacement and skips the match.  The fuel is always
instantiated with the length of the input, which suffices because every
step consumes at least one character. -/
def pyReplaceFuel (old new : List Char) : Nat → List Char → List Char
  | 0, s => s
  | _ + 1, [] => []
  | fuel + 1, c :: rest =>
    if old.isPrefixOf (c :: rest) then
      new ++ pyReplaceFuel old new fuel ((c :: rest).drop old.length)
    else
      c :: pyReplaceFuel old new fuel rest

/-- Python s.replace(old, new) for a non-empty pattern (every pattern used by
this repository is non-empty; an empty pattern is mapped to the identity). -/
def pyReplace (s old new : List Char) : List Char :=
  match old with
  | [] => s
  | _ :: _ => pyReplaceFuel old new s.length s

/-- Python substring containment, sub in s. -/
def pyContains : List Char → List Char → Bool
  | [], sub => sub.isEmpty
  | c :: rest, sub => sub.isPrefixOf (c :: rest) || pyContains rest sub

/-- Python s.split(sep) for a one-character separator: splits at every
occurrence and keeps empty pieces, so the result is always non-empty. -/
def pySplit (sep : Char) : List Char → List (List Char)
  | [] => [[]]
  | c :: rest =>
    if c = sep then [] :: pySplit sep rest
    else
      match pySplit sep rest with
      | [] => [[c]]
      | p :: ps => (c :: p) :: ps

/-- Python s.endswith(sub). -/
def pyEndsWith (s sub : List Char) : Bool :=
  sub.isSuffixOf s

/-- The three suffix-stripping replace calls that open normalize_symbol:
the Bitget margin suffix, the OKX swap suffix, then every underscore. -/
def stripSuffixes (symbol : List Char) : List Char :=
  pyReplace (pyReplace (pyReplace symbol (chars "_UMCBL") []) (chars "-SWAP") []) (chars "_") []

/-- funding_database.FundingDatabase.normalize_symbol.  The Python body
reassigns symbol through the three replace calls of stripSuffixes and then
branches; when the dash branch is entered but its inner length guard fails,
control falls through to the quote-suffix checks, so that inner guard is
flattened into the branch condition here (when a dash is present the split
always has at least two pieces, so the flattening never changes the
outcome). -/
def normalize_symbol (symbol exchange : List Char) : List Char :=
  let s := stripSuffixes symbol
  if (pyContains s (chars "-") && (pyContains s (chars "USDT") || pyContains s (chars "USD")))
      && decide (2 ≤ (pySplit (Char.ofNat 45) s).length) then
    ((pySplit (Char.ofNat 45) s).getD 0 []) ++ chars "/" ++ ((pySplit (Char.ofNat 45) s).getD 1 [])
  else if pyContains s (chars "USDT") then
    pyReplace s (chars "USDT") [] ++ chars "/USDT"
  else if pyContains s (chars "USD") then
    pyReplace s (chars "USD") [] ++ chars "/USD"
  else
    s

/-- funding_database.FundingDatabase.extract_ticker. -/
def extract_ticker (normalized_symbol : List Char) : List Char :=
  if pyContains normalized_symbol (chars "/") then
    (pySplit (Char.ofNat 47) normalized_symbol).getD 0 []
  else
    normalized_symbol

namespace FSGrouped

/-- funding_spread_grouped.normalize_symbol, textually the same algorithm as
the database copy; embedded separately because the repository has two
copies. -/
def normalize_symbol (symbol exchange : List Char) : List Char :=
  let s := pyReplace symbol (chars "_UMCBL") []
  let s := pyReplace s (chars "-SWAP") []
  let s := pyReplace s (chars "_") []
  if (pyContains s (chars "-") && (pyContains s (chars "USDT") || pyContains s (chars "USD")))
      && decide (2 ≤ (pySplit (Char.ofNat 45) s).length) then
    ((pySplit (Char.ofNat 45) s).getD 0 []) ++ chars "/" ++ ((pySplit (Char.ofNat 45) s).getD 1 [])
  else if pyContains s (chars "USDT") then
    pyReplace s (chars "USDT") [] ++ chars "/USDT"
  else if pyContains s (chars "USD") then
    pyReplace s (chars "USD") [] ++ chars "/USD"
  else
    s

end FSGrouped

/-- The per-exchange part of one funding_rates row, exactly the rates
dictionary built by get_latest_funding_rates: five optional rates, five
optional next-settlement epochs, five optional cycle lengths.  Python
floats here are only stored, compared and absolute-valued, so they are
modelled by rationals. -/
structure RatesDict where
  binance : Option ℚ
  bybit : Option ℚ
  okx : Option ℚ
  mexc : Option ℚ
  bitget : Option ℚ
  binance_next_settle : Option Int
  bybit_next_settle : Option Int
  okx_next_settle : Option Int
  mexc_next_settle : Option Int
  bitget_next_settle : Option Int
  binance_cycle : Option Int
  bybit_cycle : Option Int
  okx_cycle : Option Int
  mexc_cycle : Option Int
  bitget_cycle : Option Int
deriving DecidableEq

/-- One row of the funding_rates table: ticker is the primary key, the
fifteen per-exchange columns, and the last-update timestamp. -/
structure FundingRecord where
  ticker : List Char
  rates : RatesDict
  timestamp : Int
deriving DecidableEq

/-- The rate_values list of get_latest_funding_rates / create_alerts_by_level. -/
def rate_values (rd : RatesDict) : List (Option ℚ) :=
  [rd.binance, rd.bybit, rd.okx, rd.mexc, rd.bitget]

/-- Python max([abs(r) for r in rate_values if r is not None] or [0]), the
maximum absolute rate over the five slots with absent slots ignored and an
all-absent record counting as 0. -/
def maxAbsRate (rd : RatesDict) : ℚ :=
  match (rate_values rd).filterMap (fun r => r.map (fun x => |x|)) with
  | [] => 0
  | x :: xs => xs.foldl max x

/-- funding_database.FundingDatabase.get_latest_funding_rates: SELECT all
rows ORDER BY ticker (modelled by an insertion sort on the ticker text),
then keep each row whose maximum absolute rate meets the threshold, as a
(ticker, rates) pair. -/
def get_latest_funding_rates (threshold : ℚ) (db : List FundingRecord) :
    List (List Char × RatesDict) :=
  ((db.insertionSort (fun a b => a.ticker ≤ b.ticker)).filter
      (fun row => decide (threshold ≤ maxAbsRate row.rates))).map
    (fun row => (row.ticker, row.rates))

instance : IsTotal FundingRecord (fun a b => a.ticker ≤ b.ticker) :=
  ⟨fun a b => le_total a.ticker b.ticker⟩

instance : IsTrans FundingRecord (fun a b => a.ticker ≤ b.ticker) :=
  ⟨fun _ _ _ h1 h2 => le_trans h1 h2⟩

/-- Row-by-row model of DELETE FROM funding_rates WHERE timestamp < cutoff:
returns the remaining rows in order together with the deleted-row count. -/
def deleteOlderThan (cutoff_time : Int) : List FundingRecord → List FundingRecord × Nat
  | [] => ([], 0)
  | r :: rest =>
    let tail := deleteOlderThan cutoff_time rest
    if r.timestamp < cutoff_time then (tail.1, tail.2 + 1) else (r :: tail.1, tail.2)

/-- funding_database.FundingDatabase.cleanup_old_data: computes the cutoff
from the wall clock and the retention window exactly as in the source and
deletes every strictly older row; returns the remaining table and the
deleted-row count (the source returns only the count, the surviving table
is the mutated database state). -/
def cleanup_old_data (now days_to_keep : Int) (db : List FundingRecord) :
    List FundingRecord × Nat :=
  let cutoff_time := now - days_to_keep * 24 * 60 * 60
  deleteOlderThan cutoff_time db

/-- The five supported exchanges, the keys of the funding-data dictionary
built by collect_funding_data. -/
inductive Exchange where
  | binance
  | bybit
  | okx
  | mexc
  | bitget
deriving DecidableEq

/-- The exchange name string used as dictionary key and passed to
normalize_symbol. -/
def exchangeName : Exchange → List Char
  | .binance => chars "Binance"
  | .bybit => chars "Bybit"
  | .okx => chars "OKX"
  | .mexc => chars "MEXC"
  | .bitget => chars "Bitget"

/-- The funding-info triple produced by _extract_funding_info; its rate is
always a number (never absent). -/
structure FundingInfo where
  rate : ℚ
  nextSettleTime : Int
  collectCycle : Int
deriving DecidableEq

/-- The funding_data argument of save_funding_rates: per exchange, a mapping
from original symbol to funding info, modelled as association lists. -/
def FundingData : Type := List (Exchange × List (List Char × FundingInfo))

/-- The (exchange, symbol, info) triples visited by the nested loops of
save_funding_rates, in visit order. -/
def entriesOf (data : FundingData) : List (Exchange × List Char × FundingInfo) :=
  data.flatMap (fun p => p.2.map (fun q => (p.1, q.1, q.2)))

/-- The canonical ticker computed for one entry:
extract_ticker(normalize_symbol(symbol, exchange)), exactly as both loops of
save_funding_rates compute it. -/
def tickerOf (ex : Exchange) (symbol : List Char) : List Char :=
  extract_ticker (normalize_symbol symbol (exchangeName ex))

/-- The all_tickers set of save_funding_rates (Python set; modelled as the
deduplicated list of tickers of all entries). -/
def allTickers (data : FundingData) : List (List Char) :=
  ((entriesOf data).map (fun e => tickerOf e.1 e.2.1)).dedup

/-- The rates dictionary initialised with NULL values. -/
def emptyRates : RatesDict :=
  ⟨none, none, none, none, none, none, none, none, none, none, none, none, none, none, none⟩

/-- One step of the inner fill-in loop of save_funding_rates: when the
entry symbol normalizes to the ticker being built, the three slots of its
slots are overwritten with the reported data. -/
def applyEntry (ticker : List Char) (acc : RatesDict)
    (ent : Exchange × List Char × FundingInfo) : RatesDict :=
  if tickerOf ent.1 ent.2.1 = ticker then
    match ent.1 with
    | .binance =>
      { acc with
          binance := some ent.2.2.rate
          binance_next_settle := some ent.2.2.nextSettleTime
          binance_cycle := some ent.2.2.collectCycle }
    | .bybit =>
      { acc with
          bybit := some ent.2.2.rate
          bybit_next_settle := some ent.2.2.nextSettleTime
          bybit_cycle := some ent.2.2.collectCycle }
    | .okx =>
      { acc with
          okx := some ent.2.2.rate
          okx_next_settle := some ent.2.2.nextSettleTime
          okx_cycle := some ent.2.2.collectCycle }
    | .mexc =>
      { acc with
          mexc := some ent.2.2.rate
          mexc_next_settle := some ent.2.2.nextSettleTime
          mexc_cycle := some ent.2.2.collectCycle }
    | .bitget =>
      { acc with
          bitget := some ent.2.2.rate
          bitget_next_settle := some ent.2.2.nextSettleTime
          bitget_cycle := some ent.2.2.collectCycle }
  else acc

/-- The record save_funding_rates builds and writes for one ticker of
all_tickers, stamped with the current time. -/
def buildRecord (data : FundingData) (ticker : List Char) (current_time : Int) :
    FundingRecord :=
  ⟨ticker, (entriesOf data).foldl (applyEntry ticker) emptyRates, current_time⟩

/-- The set of records written by one save_funding_rates pass. -/
def writtenRecords (data : FundingData) (current_time : Int) : List FundingRecord :=
  (allTickers data).map (fun t => buildRecord data t current_time)

/-- INSERT OR REPLACE INTO funding_rates keyed by the ticker primary key. -/
def upsertRecord (db : List FundingRecord) (r : FundingRecord) : List FundingRecord :=
  if db.any (fun row => row.ticker == r.ticker) then
    db.map (fun row => if row.ticker == r.ticker then r else row)
  else db ++ [r]

/-- funding_database.FundingDatabase.save_funding_rates: one upsert per
ticker of the ticker set of the input, each record built by the fill-in loop. -/
def save_funding_rates (data : FundingData) (current_time : Int)
    (db : List FundingRecord) : List FundingRecord :=
  (writtenRecords data current_time).foldl upsertRecord db

/-- Does a rates dictionary have at least one of the five rate slots
non-absent? -/
def hasAnyRate (rd : RatesDict) : Bool :=
  rd.binance.isSome || rd.bybit.isSome || rd.okx.isSome || rd.mexc.isSome || rd.bitget.isSome

/-- A formatted per-ticker alert message.  message_templates.
format_ticker_message renders text from exactly this data (plus ambient
template state and the wall clock, identical for all messages of one pass,
and with the default templates the ticker appears verbatim in the header);
the routing claims only need membership of a message in a tier list, so
the message is modelled by the data it is formatted from. -/
structure TgMessage where
  ticker : List Char
  rates : RatesDict
  max_rate : ℚ
deriving DecidableEq

/-- message_templates.format_ticker_message, modelled as above. -/
def format_ticker_message (ticker : List Char) (rates : RatesDict) (max_rate : ℚ) :
    TgMessage :=
  ⟨ticker, rates, max_rate⟩

/-- The per-item loop of create_alerts_by_level: recompute the maximum
absolute rate (the source repeats the same expression used by
get_latest_funding_rates), format the message, and append it to level 2
and/or level 1. -/
def alertsLoop (t1 t2 : ℚ) : List (List Char × RatesDict) → List TgMessage × List TgMessage
  | [] => ([], [])
  | item :: rest =>
    let max_rate := maxAbsRate item.2
    let message := format_ticker_message item.1 item.2 max_rate
    let tail := alertsLoop t1 t2 rest
    if t2 ≤ max_rate then (message :: tail.1, message :: tail.2)
    else if t1 ≤ max_rate then (message :: tail.1, tail.2)
    else (tail.1, tail.2)

/-- funding_spread_db.create_alerts_by_level: reads every ticker at or above
the level-1 threshold from the database and routes each message into the
level lists (an empty read yields two empty lists, which the fold also
produces). -/
def create_alerts_by_level (t1 t2 : ℚ) (db : List FundingRecord) :
    List TgMessage × List TgMessage :=
  alertsLoop t1 t2 (get_latest_funding_rates t1 db)

/-- funding_spread_db.ALERT_TIMES. -/
def ALERT_TIMES : List Nat := [1, 8, 15, 18, 20, 25, 30, 35, 40, 45, 50, 55, 56, 57, 58, 59]

/-- funding_spread_db.should_send_alert for the minute-of-hour of the tick. -/
def should_send_alert (current_minute : Nat) : Bool :=
  ALERT_TIMES.contains current_minute

/-- funding_spread_db.should_collect_data for the minute-of-hour of the tick. -/
def should_collect_data (current_minute : Nat) : Bool :=
  current_minute == 30

/-- The mutable loop state of main: the last minute that fired
an alert and the last minute that fired a collection, both starting at -1. -/
structure SchedState where
  last_alert_minute : Int
  last_collection_minute : Int
deriving DecidableEq

/-- The initial scheduler state of main. -/
def initialSchedState : SchedState := ⟨-1, -1⟩

/-- One iteration of the while-loop body of main for a tick with the given
minute-of-hour: returns the updated state and whether collection and
alerting fired on this tick. -/
def schedTick (s : SchedState) (current_minute : Nat) : SchedState × Bool × Bool :=
  let collect := should_collect_data current_minute
      && ((current_minute : Int) != s.last_collection_minute)
  let s1 := if collect then { s with last_collection_minute := (current_minute : Int) } else s
  let alert := should_send_alert current_minute
      && ((current_minute : Int) != s1.last_alert_minute)
  let s2 := if alert then { s1 with last_alert_minute := (current_minute : Int) } else s1
  (s2, collect, alert)

/-- The scheduler loop run over a finite sequence of tick minutes, yielding
per tick whether collection and alerting fired. -/
def schedRun (s : SchedState) : List Nat → List (Bool × Bool)
  | [] => []
  | m :: rest =>
    let step := schedTick s m
    (step.2.1, step.2.2) :: schedRun step.1 rest

/-- funding_spread_db.TELEGRAM_MAX_RETRIES. -/
def TELEGRAM_MAX_RETRIES : Nat := 3

/-- One observed outcome of an HTTP send attempt: a response with a status
and an optional Retry-After header value, or a raised network error. -/
inductive TgResponse where
  | http (status : Nat) (retryAfter : Option ℚ)
  | netError
deriving DecidableEq

/-- How a send_telegram call ends: a 200 (success), a non-retryable status
(message dropped immediately), or all retries exhausted (message dropped). -/
inductive SendOutcome where
  | success
  | terminalFailure
  | exhausted
deriving DecidableEq

/-- wait_s = float(retry_after) if retry_after else min(3.0 * attempt, 10.0). -/
def backoffWait (retryAfter : Option ℚ) (attempt : Nat) : ℚ :=
  match retryAfter with
  | some ra => ra
  | none => min (3 * (attempt : ℚ)) 10

/-- The attempt loop of funding_spread_db.send_telegram.  remaining counts
the attempts still available, attempt is the 1-based attempt number; the
environment is the list of per-attempt observations (a missing entry is a
network error).  Returns the outcome, the number of attempts made, and the
sleeps performed, following the source: 200 returns success, 429/400 sleeps
the Retry-After value when present else the capped backoff and retries, any
other status returns at once dropping the message, an exception sleeps
1.0 * attempt and retries. -/
def sendTelegramAux (responses : List TgResponse) : Nat → Nat → SendOutcome × Nat × List ℚ
  | 0, _ => (.exhausted, 0, [])
  | remaining + 1, attempt =>
    match responses.getD (attempt - 1) .netError with
    | .http status ra =>
      if status = 200 then (.success, 1, [])
      else if status = 429 ∨ status = 400 then
        let tail := sendTelegramAux responses remaining (attempt + 1)
        (tail.1, tail.2.1 + 1, backoffWait ra attempt :: tail.2.2)
      else (.terminalFailure, 1, [])
    | .netError =>
      let tail := sendTelegramAux responses remaining (attempt + 1)
      (tail.1, tail.2.1 + 1, (1 * (attempt : ℚ)) :: tail.2.2)

/-- The delivery loop of funding_spread_db.send_telegram (the credential check
and chat-id/topic parsing happen before the loop and do not affect it). -/
def send_telegram (responses : List TgResponse) : SendOutcome × Nat × List ℚ :=
  sendTelegramAux responses TELEGRAM_MAX_RETRIES 1

/-- One item of the exchangeInfo symbols array, as far as
binance_get_symbols reads it; none models a missing key (Python KeyError on
access). -/
structure BinanceItem where
  symbol : Option (List Char)
  contractType : Option (List Char)
deriving DecidableEq

/-- The parsed JSON body of the exchangeInfo response:
data.get("symbols", []) yields the item list, none when the key is absent. -/
structure ExchangeInfoBody where
  symbols : Option (List BinanceItem)
deriving DecidableEq

instance {ε α : Type} [DecidableEq ε] [DecidableEq α] : DecidableEq (Except ε α) :=
  fun x y =>
    match x, y with
    | .ok a, .ok b =>
      if h : a = b then isTrue (by rw [h]) else isFalse (by simp [h])
    | .error a, .error b =>
      if h : a = b then isTrue (by rw [h]) else isFalse (by simp [h])
    | .ok _, .error _ => isFalse (by simp)
    | .error _, .ok _ => isFalse (by simp)

/-- The observed outcome of the exchangeInfo HTTP request: a status with a
body that either parses (ok) or is malformed JSON (error, making
resp.json() raise), or a raised network error. -/
inductive HttpReply where
  | reply (status : Nat) (body : Except Unit ExchangeInfoBody)
  | netError
deriving DecidableEq

/-- The list comprehension of binance_get_symbols: item["contractType"] is
read for every item and item["symbol"] for every PERPETUAL item, a missing
key raising KeyError (modelled as error). -/
def perpSymbols : List BinanceItem → Except Unit (List (List Char))
  | [] => .ok []
  | item :: rest =>
    match item.contractType with
    | none => .error ()
    | some ct =>
      if ct = chars "PERPETUAL" then
        match item.symbol with
        | none => .error ()
        | some s => (perpSymbols rest).map (fun l => s :: l)
      else perpSymbols rest

/-- funding_spread_cached.binance_get_symbols: a non-200 status returns the
previously cached list; otherwise the body is parsed and the perpetual
symbols extracted.  The function has no exception handler, so a network
error, a malformed body or a malformed item raises to the caller (error). -/
def binance_get_symbols (cached : List (List Char)) (rep : HttpReply) :
    Except Unit (List (List Char)) :=
  match rep with
  | .netError => .error ()
  | .reply status body =>
    if status ≠ 200 then .ok cached
    else
      match body with
      | .error _ => .error ()
      | .ok info => perpSymbols (info.symbols.getD [])

/-- What funding_spread_db.load_symbols observes about one candidate cache
file: missing, unreadable (open or json.load raises, caught and logged), or
parsed into JSON that is or is not a list. -/
inductive CacheFile where
  | absent
  | unreadable
  | parsedOther
  | parsedList (items : List (List Char))
deriving DecidableEq

/-- funding_spread_db.load_symbols over its candidate paths: the first file
that parses as a list wins; every failure mode is skipped with a log and
the empty list is returned when no candidate works.  Total by construction:
it never raises. -/
def load_symbols : List CacheFile → List (List Char)
  | [] => []
  | .absent :: rest => load_symbols rest
  | .unreadable :: rest => load_symbols rest
  | .parsedOther :: rest => load_symbols rest
  | .parsedList items :: _ => items

/-- Modelled from the spec wording of claim C4, for comparison with the
code: after suffix stripping and with no dash-plus-quote match, a string
ending in the token USDT maps to the prefix before that suffix joined with
/USDT, then likewise for USD, else the string is returned unchanged. -/
def claimQuoteRule (s : List Char) : List Char :=
  if pyEndsWith s (chars "USDT") then s.take (s.length - 4) ++ chars "/USDT"
  else if pyEndsWith s (chars "USD") then s.take (s.length - 3) ++ chars "/USD"
  else s

/-- A concrete database used to instantiate the tier-membership example:
three tickers whose maximum absolute rates are 2.5, 1.3 and 0.5. -/
def exampleDb : List FundingRecord :=
  [⟨chars "AAA", { emptyRates with binance := some (Rat.divInt 5 2) }, 0⟩,
   ⟨chars "BBB", { emptyRates with bybit := some (Rat.divInt 13 10) }, 0⟩,
   ⟨chars "CCC", { emptyRates with okx := some (Rat.divInt 1 2) }, 0⟩]

/-! ## Helper lemmas -/

/-- A replace scan leaves the input unchanged when the pattern occurs
nowhere in it, for any fuel. -/
theorem pyReplaceFuel_of_not_contains (old new : List Char) :
    ∀ (fuel : Nat) (s : List Char), pyContains s old = false →
      pyReplaceFuel old new fuel s = s := by
  intro fuel
  induction fuel with
  | zero => intro s _; rfl
  | succ n ih =>
    intro s hs
    cases s with
    | nil => rfl
    | cons c rest =>
      have hsplit : old.isPrefixOf (c :: rest) = false ∧ pyContains rest old = false := by
        have : (old.isPrefixOf (c :: rest) || pyContains rest old) = false := hs
        constructor
        · exact Bool.or_eq_false_iff.mp this |>.1
        · exact Bool.or_eq_false_iff.mp this |>.2
      simp only [pyReplaceFuel, hsplit.1, Bool.false_eq_true, if_false]
      rw [ih rest hsplit.2]

/-- Python replace is the identity when the pattern occurs nowhere. -/
theorem pyReplace_of_not_contains (s old new : List Char)
    (h : pyContains s old = false) : pyReplace s old new = s := by
  cases old with
  | nil => rfl
  | cons c rest => exact pyReplaceFuel_of_not_contains _ new _ s h

/-! ## Claims about the Normalizer -/

/-- C10: the result of the normalizer never depends on the exchange argument —
both copies of normalize_symbol ignore it (all suffix stripping is applied
unconditionally to every input), and the two copies agree. -/
theorem normalize_symbol_ignores_exchange (symbol e1 e2 : List Char) :
    normalize_symbol symbol e1 = normalize_symbol symbol e2 ∧
    FSGrouped.normalize_symbol symbol e1 = FSGrouped.normalize_symbol symbol e2 ∧
    FSGrouped.normalize_symbol symbol e1 = normalize_symbol symbol e1 :=
  ⟨rfl, rfl, rfl⟩

/-- C4, counterexample: the claim predicts that a stripped string with no
dash-plus-quote match that does not END in USDT or USD is returned
unchanged, but the code tests substring CONTAINMENT: the input USDTBTC is
unchanged by stripping, has no dash, ends in neither quote token — yet
normalize_symbol rewrites it to BTC/USDT instead of returning it
unchanged. -/
theorem normalize_symbol_suffix_claim_false :
    stripSuffixes (chars "USDTBTC") = chars "USDTBTC" ∧
    (pyContains (chars "USDTBTC") (chars "-")
      && (pyContains (chars "USDTBTC") (chars "USDT")
          || pyContains (chars "USDTBTC") (chars "USD"))) = false ∧
    pyEndsWith (chars "USDTBTC") (chars "USDT") = false ∧
    pyEndsWith (chars "USDTBTC") (chars "USD") = false ∧
    claimQuoteRule (chars "USDTBTC") = chars "USDTBTC" ∧
    normalize_symbol (chars "USDTBTC") (chars "Binance") = chars "BTC/USDT" ∧
    normalize_symbol (chars "USDTBTC") (chars "Binance") ≠ chars "USDTBTC" := by
  refine ⟨by decide, by decide, by decide, by decide, by decide, by decide, by decide⟩

/-- C4, amended: for every input symbol whose stripped form has no
dash-plus-quote match, the quote branch is decided by substring
containment, not by a suffix test: if the stripped string contains USDT
anywhere it becomes (string with every USDT occurrence removed) ++ /USDT,
else if it contains USD anywhere likewise with USD (USDT checked before
USD), else it is returned unchanged; in particular USDTBTC, which merely
contains USDT, is still rewritten to BTC/USDT. -/
theorem normalize_symbol_containment_rule (symbol exchange : List Char)
    (h : (pyContains (stripSuffixes symbol) (chars "-")
        && (pyContains (stripSuffixes symbol) (chars "USDT")
            || pyContains (stripSuffixes symbol) (chars "USD"))) = false) :
    normalize_symbol symbol exchange =
      (if pyContains (stripSuffixes symbol) (chars "USDT") then
        pyReplace (stripSuffixes symbol) (chars "USDT") [] ++ chars "/USDT"
      else if pyContains (stripSuffixes symbol) (chars "USD") then
        pyReplace (stripSuffixes symbol) (chars "USD") [] ++ chars "/USD"
      else stripSuffixes symbol) ∧
    normalize_symbol (chars "USDTBTC") (chars "Binance") = chars "BTC/USDT" := by
  constructor
  · simp only [normalize_symbol, h, Bool.false_and, Bool.false_eq_true, if_false]
  · decide

/-- C4 witness: at the concrete input BTCUSDT (no dash-plus-quote match)
the containment rule applies and yields BTC/USDT. -/
theorem normalize_symbol_containment_rule_witness :
    normalize_symbol (chars "BTCUSDT") (chars "Binance") =
      (if pyContains (stripSuffixes (chars "BTCUSDT")) (chars "USDT") then
        pyReplace (stripSuffixes (chars "BTCUSDT")) (chars "USDT") [] ++ chars "/USDT"
      else if pyContains (stripSuffixes (chars "BTCUSDT")) (chars "USD") then
        pyReplace (stripSuffixes (chars "BTCUSDT")) (chars "USD") [] ++ chars "/USD"
      else stripSuffixes (chars "BTCUSDT")) ∧
    normalize_symbol (chars "USDTBTC") (chars "Binance") = chars "BTC/USDT" :=
  normalize_symbol_containment_rule (chars "BTCUSDT") (chars "Binance") (by decide)

/-- C5, counterexample: BTC/USDT is an already-canonical pair (it is the
own output of the normalizer on BTCUSDT), yet normalization is not idempotent on
it: normalize(BTC/USDT) = BTC//USDT while normalize(normalize(BTC/USDT)) =
BTC///USDT. -/
theorem normalize_symbol_not_idempotent_on_canonical :
    normalize_symbol (chars "BTCUSDT") (chars "Binance") = chars "BTC/USDT" ∧
    normalize_symbol (chars "BTC/USDT") (chars "Binance") = chars "BTC//USDT" ∧
    normalize_symbol (normalize_symbol (chars "BTC/USDT") (chars "Binance")) (chars "Binance") =
      chars "BTC///USDT" ∧
    normalize_symbol (normalize_symbol (chars "BTC/USDT") (chars "Binance")) (chars "Binance") ≠
      normalize_symbol (chars "BTC/USDT") (chars "Binance") := by
  refine ⟨by decide, by decide, by decide, by decide⟩

/-- C5, amended: normalization is idempotent exactly where it is the
identity; on any input containing none of the substrings _UMCBL, -SWAP, _,
USDT, USD (in particular any canonical BASE/QUOTE pair with a quote other
than USD or USDT) normalize_symbol returns its input unchanged, hence
normalize(normalize(x,e),e) = normalize(x,e); on canonical pairs quoted in
USDT or USD the equation fails, each application inserting another /. -/
theorem normalize_symbol_idempotent_on_unchanged (x exchange : List Char)
    (h1 : pyContains x (chars "_UMCBL") = false)
    (h2 : pyContains x (chars "-SWAP") = false)
    (h3 : pyContains x (chars "_") = false)
    (h4 : pyContains x (chars "USDT") = false)
    (h5 : pyContains x (chars "USD") = false) :
    normalize_symbol x exchange = x ∧
    normalize_symbol (normalize_symbol x exchange) exchange =
      normalize_symbol x exchange := by
  have hs : stripSuffixes x = x := by
    unfold stripSuffixes
    rw [pyReplace_of_not_contains x _ _ h1, pyReplace_of_not_contains x _ _ h2,
      pyReplace_of_not_contains x _ _ h3]
  have hfix : normalize_symbol x exchange = x := by
    simp only [normalize_symbol, hs, h4, h5, Bool.or_self, Bool.and_false,
      Bool.false_and, Bool.false_eq_true, if_false]
  exact ⟨hfix, by rw [hfix]; exact hfix⟩

/-- C5 witness: the canonical pair ABC/XYZ is left unchanged, hence
normalization is idempotent on it. -/
theorem normalize_symbol_idempotent_on_unchanged_witness :
    normalize_symbol (chars "ABC/XYZ") (chars "OKX") = chars "ABC/XYZ" ∧
    normalize_symbol (normalize_symbol (chars "ABC/XYZ") (chars "OKX")) (chars "OKX") =
      normalize_symbol (chars "ABC/XYZ") (chars "OKX") :=
  normalize_symbol_idempotent_on_unchanged (chars "ABC/XYZ") (chars "OKX")
    (by decide) (by decide) (by decide) (by decide) (by decide)

/-! ## Claims about the Rate Store -/

/-- C1: for every threshold and database state, get_latest_funding_rates
returns exactly the tickers whose maximum absolute rate over the five
exchange slots (absent slots ignored, an all-absent record counting as
maximum 0) meets the threshold, each paired with its stored per-exchange
rates, and the returned list is ordered by ticker name ascending. -/
theorem get_latest_funding_rates_spec (t : ℚ) (db : List FundingRecord) :
    (∀ p : List Char × RatesDict, p ∈ get_latest_funding_rates t db ↔
      ∃ row ∈ db, t ≤ maxAbsRate row.rates ∧ p = (row.ticker, row.rates)) ∧
    (get_latest_funding_rates t db).Sorted (fun p q => p.1 ≤ q.1) ∧
    maxAbsRate emptyRates = 0 := by
  refine ⟨?_, ?_, by decide⟩
  · intro p
    simp only [get_latest_funding_rates, List.mem_map, List.mem_filter,
      List.mem_insertionSort, decide_eq_true_eq]
    constructor
    · rintro ⟨row, ⟨hmem, hth⟩, rfl⟩
      exact ⟨row, hmem, hth, rfl⟩
    · rintro ⟨row, hmem, hth, rfl⟩
      exact ⟨row, ⟨hmem, hth⟩, rfl⟩
  · have hs : (db.insertionSort (fun a b : FundingRecord => a.ticker ≤ b.ticker)).Sorted
        (fun a b => a.ticker ≤ b.ticker) :=
      List.sorted_insertionSort _ db
    have hf := List.Sorted.filter (r := fun a b : FundingRecord => a.ticker ≤ b.ticker)
      (fun row => decide (t ≤ maxAbsRate row.rates)) hs
    exact List.Pairwise.map _ (fun a b hab => hab) hf

/-- C9: cleanup_old_data deletes exactly the records whose timestamp is
strictly below the cutoff (wall clock minus the retention window in
seconds), keeps every record with timestamp at or above the cutoff
unchanged and in order, and returns the number of records deleted. -/
theorem cleanup_old_data_spec (now days_to_keep : Int) (db : List FundingRecord) :
    (cleanup_old_data now days_to_keep db).1 =
      db.filter (fun r => decide (now - days_to_keep * 24 * 60 * 60 ≤ r.timestamp)) ∧
    (cleanup_old_data now days_to_keep db).2 =
      (db.filter (fun r => decide (r.timestamp < now - days_to_keep * 24 * 60 * 60))).length := by
  unfold cleanup_old_data
  induction db with
  | nil => exact ⟨rfl, rfl⟩
  | cons r rest ih =>
    by_cases h : r.timestamp < now - days_to_keep * 24 * 60 * 60
    · have hk : ¬ (now - days_to_keep * 24 * 60 * 60 ≤ r.timestamp) := not_le.mpr h
      simp [deleteOlderThan, List.filter_cons, h, hk, ih.1, ih.2]
      rw [if_neg (by omega)]
    · have hk : now - days_to_keep * 24 * 60 * 60 ≤ r.timestamp := not_lt.mp h
      simp [deleteOlderThan, List.filter_cons, h, hk, ih.1, ih.2]
      rw [if_pos (by omega)]

/-! ## Claims about the Alert Composer -/

/-- An item at or above the level-2 threshold contributes its message to
both lists of the alert loop. -/
theorem alertsLoop_mem_both (t1 t2 : ℚ) :
    ∀ l : List (List Char × RatesDict), ∀ p ∈ l, t2 ≤ maxAbsRate p.2 →
      format_ticker_message p.1 p.2 (maxAbsRate p.2) ∈ (alertsLoop t1 t2 l).1 ∧
      format_ticker_message p.1 p.2 (maxAbsRate p.2) ∈ (alertsLoop t1 t2 l).2 := by
  intro l
  induction l with
  | nil => intro p hp; exact absurd hp (List.not_mem_nil p)
  | cons item rest ih =>
    intro p hp h2
    rcases List.mem_cons.mp hp with heq | htail
    · subst heq
      simp only [alertsLoop, if_pos h2]
      exact ⟨List.mem_cons_self _ _, List.mem_cons_self _ _⟩
    · have := ih p htail h2
      simp only [alertsLoop]
      by_cases hc2 : t2 ≤ maxAbsRate item.2
      · simp only [if_pos hc2]
        exact ⟨List.mem_cons_of_mem _ this.1, List.mem_cons_of_mem _ this.2⟩
      · by_cases hc1 : t1 ≤ maxAbsRate item.2
        · simp only [if_neg hc2, if_pos hc1]
          exact ⟨List.mem_cons_of_mem _ this.1, this.2⟩
        · simp only [if_neg hc2, if_neg hc1]
          exact this

/-- An item at or above the level-1 threshold contributes its message to
the level-1 list of the alert loop. -/
theorem alertsLoop_mem_one (t1 t2 : ℚ) :
    ∀ l : List (List Char × RatesDict), ∀ p ∈ l, t1 ≤ maxAbsRate p.2 →
      format_ticker_message p.1 p.2 (maxAbsRate p.2) ∈ (alertsLoop t1 t2 l).1 := by
  intro l
  induction l with
  | nil => intro p hp; exact absurd hp (List.not_mem_nil p)
  | cons item rest ih =>
    intro p hp h1
    rcases List.mem_cons.mp hp with heq | htail
    · subst heq
      simp only [alertsLoop]
      by_cases hc2 : t2 ≤ maxAbsRate p.2
      · simp only [if_pos hc2]; exact List.mem_cons_self _ _
      · simp only [if_neg hc2, if_pos h1]; exact List.mem_cons_self _ _
    · have := ih p htail h1
      simp only [alertsLoop]
      by_cases hc2 : t2 ≤ maxAbsRate item.2
      · simp only [if_pos hc2]; exact List.mem_cons_of_mem _ this
      · by_cases hc1 : t1 ≤ maxAbsRate item.2
        · simp only [if_neg hc2, if_pos hc1]; exact List.mem_cons_of_mem _ this
        · simp only [if_neg hc2, if_neg hc1]; exact this

/-- Every message of the level-2 list comes from an item at or above the
level-2 threshold. -/
theorem alertsLoop_sound_two (t1 t2 : ℚ) :
    ∀ l : List (List Char × RatesDict), ∀ m ∈ (alertsLoop t1 t2 l).2,
      ∃ p ∈ l, t2 ≤ maxAbsRate p.2 ∧ m = format_ticker_message p.1 p.2 (maxAbsRate p.2) := by
  intro l
  induction l with
  | nil => intro m hm; exact absurd hm (List.not_mem_nil m)
  | cons item rest ih =>
    intro m hm
    simp only [alertsLoop] at hm
    by_cases hc2 : t2 ≤ maxAbsRate item.2
    · rw [if_pos hc2] at hm
      rcases List.mem_cons.mp hm with heq | htail
      · exact ⟨item, List.mem_cons_self _ _, hc2, heq⟩
      · obtain ⟨p, hp, h2, hme⟩ := ih m htail
        exact ⟨p, List.mem_cons_of_mem _ hp, h2, hme⟩
    · by_cases hc1 : t1 ≤ maxAbsRate item.2
      · rw [if_neg hc2, if_pos hc1] at hm
        obtain ⟨p, hp, h2, hme⟩ := ih m hm
        exact ⟨p, List.mem_cons_of_mem _ hp, h2, hme⟩
      · rw [if_neg hc2, if_neg hc1] at hm
        obtain ⟨p, hp, h2, hme⟩ := ih m hm
        exact ⟨p, List.mem_cons_of_mem _ hp, h2, hme⟩

/-- Every message of the level-1 list comes from an item at or above the
level-1 threshold (the level-2 branch also appends to level 1, so this
needs t1 ≤ t2). -/
theorem alertsLoop_sound_one (t1 t2 : ℚ) (hle : t1 ≤ t2) :
    ∀ l : List (List Char × RatesDict), ∀ m ∈ (alertsLoop t1 t2 l).1,
      ∃ p ∈ l, t1 ≤ maxAbsRate p.2 ∧ m = format_ticker_message p.1 p.2 (maxAbsRate p.2) := by
  intro l
  induction l with
  | nil => intro m hm; exact absurd hm (List.not_mem_nil m)
  | cons item rest ih =>
    intro m hm
    simp only [alertsLoop] at hm
    by_cases hc2 : t2 ≤ maxAbsRate item.2
    · rw [if_pos hc2] at hm
      rcases List.mem_cons.mp hm with heq | htail
      · exact ⟨item, List.mem_cons_self _ _, le_trans hle hc2, heq⟩
      · obtain ⟨p, hp, h1, hme⟩ := ih m htail
        exact ⟨p, List.mem_cons_of_mem _ hp, h1, hme⟩
    · by_cases hc1 : t1 ≤ maxAbsRate item.2
      · rw [if_neg hc2, if_pos hc1] at hm
        rcases List.mem_cons.mp hm with heq | htail
        · exact ⟨item, List.mem_cons_self _ _, hc1, heq⟩
        · obtain ⟨p, hp, h1, hme⟩ := ih m htail
          exact ⟨p, List.mem_cons_of_mem _ hp, h1, hme⟩
      · rw [if_neg hc2, if_neg hc1] at hm
        obtain ⟨p, hp, h1, hme⟩ := ih m hm
        exact ⟨p, List.mem_cons_of_mem _ hp, h1, hme⟩

/-- C2: with thresholds t1 < t2, create_alerts_by_level puts the message of
every stored item whose maximum absolute rate meets t2 into BOTH tier
lists, the message of every item meeting t1 into tier 1, and conversely
every tier-2 (tier-1) message comes from an item meeting t2 (t1); in
particular with thresholds 1.0 and 2.0 the example ticker with maximum
rate 2.5 appears in both lists, the one with 1.3 only in tier 1, and the
one with 0.5 in neither. -/
theorem create_alerts_by_level_tier_routing (t1 t2 : ℚ) (db : List FundingRecord)
    (h : t1 < t2) :
    (∀ p ∈ get_latest_funding_rates t1 db, t2 ≤ maxAbsRate p.2 →
      format_ticker_message p.1 p.2 (maxAbsRate p.2) ∈ (create_alerts_by_level t1 t2 db).1 ∧
      format_ticker_message p.1 p.2 (maxAbsRate p.2) ∈ (create_alerts_by_level t1 t2 db).2) ∧
    (∀ p ∈ get_latest_funding_rates t1 db, t1 ≤ maxAbsRate p.2 →
      format_ticker_message p.1 p.2 (maxAbsRate p.2) ∈ (create_alerts_by_level t1 t2 db).1) ∧
    (∀ m ∈ (create_alerts_by_level t1 t2 db).2, ∃ p ∈ get_latest_funding_rates t1 db,
      t2 ≤ maxAbsRate p.2 ∧ m = format_ticker_message p.1 p.2 (maxAbsRate p.2)) ∧
    (∀ m ∈ (create_alerts_by_level t1 t2 db).1, ∃ p ∈ get_latest_funding_rates t1 db,
      t1 ≤ maxAbsRate p.2 ∧ m = format_ticker_message p.1 p.2 (maxAbsRate p.2)) ∧
    (format_ticker_message (chars "AAA") { emptyRates with binance := some (Rat.divInt 5 2) }
        (Rat.divInt 5 2) ∈ (create_alerts_by_level 1 2 exampleDb).1 ∧
      format_ticker_message (chars "AAA") { emptyRates with binance := some (Rat.divInt 5 2) }
        (Rat.divInt 5 2) ∈ (create_alerts_by_level 1 2 exampleDb).2 ∧
      format_ticker_message (chars "BBB") { emptyRates with bybit := some (Rat.divInt 13 10) }
        (Rat.divInt 13 10) ∈ (create_alerts_by_level 1 2 exampleDb).1 ∧
      format_ticker_message (chars "BBB") { emptyRates with bybit := some (Rat.divInt 13 10) }
        (Rat.divInt 13 10) ∉ (create_alerts_by_level 1 2 exampleDb).2 ∧
      format_ticker_message (chars "CCC") { emptyRates with okx := some (Rat.divInt 1 2) }
        (Rat.divInt 1 2) ∉ (create_alerts_by_level 1 2 exampleDb).1 ∧
      format_ticker_message (chars "CCC") { emptyRates with okx := some (Rat.divInt 1 2) }
        (Rat.divInt 1 2) ∉ (create_alerts_by_level 1 2 exampleDb).2) := by
  refine ⟨?_, ?_, ?_, ?_, by decide, by decide, by decide, by decide, by decide, by decide⟩
  · intro p hp h2
    exact alertsLoop_mem_both t1 t2 (get_latest_funding_rates t1 db) p hp h2
  · intro p hp h1
    exact alertsLoop_mem_one t1 t2 (get_latest_funding_rates t1 db) p hp h1
  · intro m hm
    exact alertsLoop_sound_two t1 t2 (get_latest_funding_rates t1 db) m hm
  · intro m hm
    exact alertsLoop_sound_one t1 t2 (le_of_lt h) (get_latest_funding_rates t1 db) m hm

/-- C2 witness: the routing theorem instantiated at thresholds 1 and 2 on
the example database. -/
theorem create_alerts_by_level_tier_routing_witness :
    format_ticker_message (chars "AAA") { emptyRates with binance := some (Rat.divInt 5 2) }
      (Rat.divInt 5 2) ∈ (create_alerts_by_level 1 2 exampleDb).2 :=
  (create_alerts_by_level_tier_routing 1 2 exampleDb (by norm_num)).2.2.2.2.2.1

/-! ## Claims about the Scheduler -/

/-- C3, divergence witness: the loop remembers only the minute VALUE last
acted on and never resets it, so after the first collection at minute 30
the guard current_minute != last_collection_minute is false at minute 30
of every later hour.  Over ticks at minutes 30, 31 and (next hour) 30,
collection fires only on the first tick although the third also matches
the collection minute; the code comment says collection happens at minute
30 of each hour, and the claim says collection runs once for every hour
whose minute-30 tick occurs.  (Alerting is also shown at-most-once within
one matching minute, the part of the claim the code does satisfy.) -/
theorem scheduler_collection_fires_once_only :
    should_collect_data 30 = true ∧
    (schedRun initialSchedState [30, 31, 30]).map Prod.fst = [true, false, false] ∧
    (schedRun initialSchedState [30, 30]).map Prod.fst = [true, false] ∧
    (schedRun initialSchedState [1, 1]).map (fun x => x.2) = [true, false] := by
  refine ⟨by decide, by decide, by decide, by decide⟩

/-! ## Claims about the Dispatcher -/

/-- The attempt loop makes at most as many attempts as it has remaining. -/
theorem sendTelegramAux_attempts_le (responses : List TgResponse) :
    ∀ remaining attempt : Nat,
      (sendTelegramAux responses remaining attempt).2.1 ≤ remaining := by
  intro remaining
  induction remaining with
  | zero => intro attempt; simp [sendTelegramAux]
  | succ n ih =>
    intro attempt
    simp only [sendTelegramAux]
    cases hresp : responses.getD (attempt - 1) TgResponse.netError with
    | http status ra =>
      dsimp only
      by_cases h200 : status = 200
      · rw [if_pos h200]
        exact Nat.succ_le_succ (Nat.zero_le n)
      · by_cases hretry : status = 429 ∨ status = 400
        · rw [if_neg h200, if_pos hretry]
          exact Nat.succ_le_succ (ih (attempt + 1))
        · rw [if_neg h200, if_neg hretry]
          exact Nat.succ_le_succ (Nat.zero_le n)
    | netError =>
      dsimp only
      exact Nat.succ_le_succ (ih (attempt + 1))

/-- C6: send_telegram makes at most 3 attempts; a first 200 ends the call
as success after one attempt; any first status other than 200/429/400 ends
the call at once with the message dropped; a first 429 or 400 retries
after waiting the Retry-After value when present, else min(3.0 * attempt,
10.0) seconds; and concretely a 429 with Retry-After 2 followed by a 200
makes exactly two attempts, sleeps 2 seconds, and succeeds. -/
theorem send_telegram_retry_policy :
    (∀ responses, (send_telegram responses).2.1 ≤ TELEGRAM_MAX_RETRIES) ∧
    (∀ (ra : Option ℚ) (rest : List TgResponse),
      send_telegram (.http 200 ra :: rest) = (.success, 1, [])) ∧
    (∀ (status : Nat) (ra : Option ℚ) (rest : List TgResponse),
      status ≠ 200 → status ≠ 429 → status ≠ 400 →
      send_telegram (.http status ra :: rest) = (.terminalFailure, 1, [])) ∧
    (∀ (status : Nat) (ra : Option ℚ) (rest : List TgResponse),
      status = 429 ∨ status = 400 →
      send_telegram (.http status ra :: rest) =
        ((sendTelegramAux (.http status ra :: rest) 2 2).1,
         (sendTelegramAux (.http status ra :: rest) 2 2).2.1 + 1,
         backoffWait ra 1 :: (sendTelegramAux (.http status ra :: rest) 2 2).2.2)) ∧
    (∀ ra : ℚ, backoffWait (some ra) 1 = ra) ∧
    (∀ attempt : Nat, backoffWait none attempt = min (3 * (attempt : ℚ)) 10) ∧
    send_telegram [.http 429 (some 2), .http 200 none] = (.success, 2, [2]) := by
  refine ⟨?_, ?_, ?_, ?_, fun ra => rfl, fun attempt => rfl, by decide⟩
  · intro responses
    exact sendTelegramAux_attempts_le responses TELEGRAM_MAX_RETRIES 1
  · intro ra rest; rfl
  · intro status ra rest h200 h429 h400
    simp only [send_telegram, TELEGRAM_MAX_RETRIES, sendTelegramAux, Nat.sub_self,
      List.getD_cons_zero]
    rw [if_neg h200, if_neg (by simp [h429, h400] : ¬ (status = 429 ∨ status = 400))]
  · intro status ra rest h
    rcases h with rfl | rfl
    · rfl
    · rfl

/-- C6 witness: a first response of 503 drops the message after exactly one
attempt. -/
theorem send_telegram_retry_policy_witness :
    send_telegram [TgResponse.http 503 none] = (.terminalFailure, 1, []) :=
  send_telegram_retry_policy.2.2.1 503 none [] (by decide) (by decide) (by decide)

/-! ## Claims about the Symbol Store -/

/-- C7, counterexample: the claim says a malformed response yields the
previously cached list and load/refresh never raises, but
binance_get_symbols has no exception handler: a 200 reply whose body fails
to parse makes resp.json() raise to the caller instead of returning the
cache. -/
theorem binance_get_symbols_raises_on_malformed :
    binance_get_symbols [chars "BTCUSDT"] (.reply 200 (.error ())) = .error () ∧
    binance_get_symbols [chars "BTCUSDT"] (.reply 200 (.error ())) ≠
      .ok [chars "BTCUSDT"] := by
  exact ⟨rfl, by decide⟩

/-- C7, amended: a non-200 HTTP status does return the previously cached
list, and load_symbols (the cache reader of the database bot) never raises —
it returns the first candidate file that parses as a list and the empty
list when none does; but a network error or a malformed 200 body in the
symbol refresh raises to the caller. -/
theorem symbol_store_failure_policy :
    (∀ (cached : List (List Char)) (status : Nat) (body : Except Unit ExchangeInfoBody),
      status ≠ 200 → binance_get_symbols cached (.reply status body) = .ok cached) ∧
    (∀ cached : List (List Char),
      binance_get_symbols cached (.reply 200 (.error ())) = .error ()) ∧
    (∀ cached : List (List Char), binance_get_symbols cached .netError = .error ()) ∧
    (∀ files : List CacheFile,
      (∀ f ∈ files, ∀ items, f ≠ CacheFile.parsedList items) → load_symbols files = []) ∧
    (∀ (pre : List CacheFile) (items : List (List Char)) (rest : List CacheFile),
      (∀ f ∈ pre, ∀ its, f ≠ CacheFile.parsedList its) →
      load_symbols (pre ++ CacheFile.parsedList items :: rest) = items) := by
  refine ⟨?_, fun cached => rfl, fun cached => rfl, ?_, ?_⟩
  · intro cached status body h
    simp [binance_get_symbols, h]
  · intro files
    induction files with
    | nil => intro _; rfl
    | cons f rest ih =>
      intro h
      cases f with
      | absent => exact ih (fun g hg => h g (List.mem_cons_of_mem _ hg))
      | unreadable => exact ih (fun g hg => h g (List.mem_cons_of_mem _ hg))
      | parsedOther => exact ih (fun g hg => h g (List.mem_cons_of_mem _ hg))
      | parsedList items => exact absurd rfl (h _ (List.mem_cons_self _ _) items)
  · intro pre items rest
    induction pre with
    | nil => intro _; rfl
    | cons f pr ih =>
      intro h
      cases f with
      | absent => exact ih (fun g hg => h g (List.mem_cons_of_mem _ hg))
      | unreadable => exact ih (fun g hg => h g (List.mem_cons_of_mem _ hg))
      | parsedOther => exact ih (fun g hg => h g (List.mem_cons_of_mem _ hg))
      | parsedList its => exact absurd rfl (h _ (List.mem_cons_self _ _) its)

/-- C7 witness: a 500 reply returns the cache; an unreadable then a parsed
candidate list returns that list. -/
theorem symbol_store_failure_policy_witness :
    binance_get_symbols [chars "BTCUSDT"] (.reply 500 (.error ())) = .ok [chars "BTCUSDT"] ∧
    load_symbols [CacheFile.unreadable, CacheFile.parsedList [chars "ETHUSDT"]] =
      [chars "ETHUSDT"] :=
  ⟨symbol_store_failure_policy.1 [chars "BTCUSDT"] 500 (.error ()) (by decide),
   symbol_store_failure_policy.2.2.2.2 [CacheFile.unreadable] [chars "ETHUSDT"] []
     (by intro f hf its; fin_cases hf <;> simp)⟩

/-! ## Claims about saving funding rates -/

/-- A fill-in step preserves having a rate slot set. -/
theorem hasAnyRate_applyEntry (ticker : List Char) (acc : RatesDict)
    (ent : Exchange × List Char × FundingInfo) (h : hasAnyRate acc = true) :
    hasAnyRate (applyEntry ticker acc ent) = true := by
  rcases ent with ⟨ex, sym, info⟩
  by_cases hc : tickerOf ex sym = ticker
  · cases ex <;> simp [applyEntry, hasAnyRate, hc]
  · simpa [applyEntry, hc] using h

/-- A fill-in step on a matching entry sets the rate slot of that exchange. -/
theorem hasAnyRate_applyEntry_match (ticker : List Char) (acc : RatesDict)
    (ent : Exchange × List Char × FundingInfo) (h : tickerOf ent.1 ent.2.1 = ticker) :
    hasAnyRate (applyEntry ticker acc ent) = true := by
  rcases ent with ⟨ex, sym, info⟩
  cases ex <;> simp [applyEntry, hasAnyRate, h]

/-- The fill-in fold preserves having a rate slot set. -/
theorem hasAnyRate_foldl (ticker : List Char) :
    ∀ (l : List (Exchange × List Char × FundingInfo)) (acc : RatesDict),
      hasAnyRate acc = true → hasAnyRate (l.foldl (applyEntry ticker) acc) = true := by
  intro l
  induction l with
  | nil => intro acc h; exact h
  | cons e rest ih => intro acc h; exact ih _ (hasAnyRate_applyEntry ticker acc e h)

/-- If some entry of the fold matches the ticker, the folded record has a
rate slot set. -/
theorem hasAnyRate_foldl_of_mem (ticker : List Char) :
    ∀ (l : List (Exchange × List Char × FundingInfo)) (acc : RatesDict)
      (ent : Exchange × List Char × FundingInfo),
      ent ∈ l → tickerOf ent.1 ent.2.1 = ticker →
      hasAnyRate (l.foldl (applyEntry ticker) acc) = true := by
  intro l
  induction l with
  | nil => intro acc ent h _; exact absurd h (List.not_mem_nil ent)
  | cons e rest ih =>
    intro acc ent hmem ht
    rcases List.mem_cons.mp hmem with heq | htail
    · subst heq
      exact hasAnyRate_foldl ticker rest _ (hasAnyRate_applyEntry_match ticker acc ent ht)
    · exact ih _ ent htail ht

/-- C8: every record written by a save_funding_rates pass has at least one
of the five exchange rate slots non-absent — a ticker is in the written
set only because some entry of the input normalizes to it, and that
fill-in step of that entry sets the rate of its exchange; save_funding_rates itself
is exactly one upsert per written record. -/
theorem save_funding_rates_written_nonempty (data : FundingData) (current_time : Int)
    (r : FundingRecord) (hr : r ∈ writtenRecords data current_time) :
    hasAnyRate r.rates = true ∧
    ∀ db : List FundingRecord,
      save_funding_rates data current_time db =
        (writtenRecords data current_time).foldl upsertRecord db := by
  refine ⟨?_, fun db => rfl⟩
  obtain ⟨t, ht, rfl⟩ := List.mem_map.mp hr
  have ht2 : t ∈ (entriesOf data).map (fun e => tickerOf e.1 e.2.1) := List.mem_dedup.mp ht
  obtain ⟨ent, hent, htk⟩ := List.mem_map.mp ht2
  exact hasAnyRate_foldl_of_mem t (entriesOf data) emptyRates ent hent htk

/-- C8 witness: a one-exchange, one-symbol pass writes the BTC record with
its Binance rate slot set. -/
theorem save_funding_rates_written_nonempty_witness :
    hasAnyRate (buildRecord [(Exchange.binance, [(chars "BTCUSDT", ⟨Rat.divInt 1 2, 5, 8⟩)])]
      (chars "BTC") 7).rates = true :=
  (save_funding_rates_written_nonempty
    [(Exchange.binance, [(chars "BTCUSDT", ⟨Rat.divInt 1 2, 5, 8⟩)])] 7
    (buildRecord [(Exchange.binance, [(chars "BTCUSDT", ⟨Rat.divInt 1 2, 5, 8⟩)])]
      (chars "BTC") 7) (by decide)).1
